import Mathlib

/-!
Shallow embedding of the Go code generator in src/gen/generator.go
(package gen of thriftrw-go).

The repository snapshot contains only generator.go.  The symbol table
("namespace"), the import registry ("importer") and the template
minilanguage live elsewhere:

* namespace.Reserve / NewName and importer.Import / AddImportSpec /
  importDecl are modelled from the spec (sections 4.1 and 4.2), as marked
  on each definition;
* the text/template engine and the go/parser are external collaborators;
  they are parameters of the embedded functions, together with a small
  concrete model of a compiled template as a trace of actions (emit text,
  call the template-exposed import function, or abort with an execution
  error), mirroring the sequential, first-error-aborts semantics of
  text/template execution;
* go/ast declarations are modelled by the Decl / Spec / Tok inductives
  below, restricted to exactly the shape generator.go inspects.

Machine integers play no role here; all state is lists, finite sets and
strings.
-/

set_option maxHeartbeats 1000000

namespace Thriftrw

/-- The go/token tokens a GenDecl can carry.  The parser only ever
produces IMPORT, CONST, TYPE or VAR for general declarations; the
constructor other stands for every remaining token value of the Go token
enumeration. -/
inductive Tok where
  | IMPORT
  | CONST
  | TYPE
  | VAR
  | other
  deriving DecidableEq

/-- The go/ast specs inspected by recordGenDeclNames: an ImportSpec
(path plus optional local alias), a ValueSpec (the declared names) or a
TypeSpec (the declared type name). -/
inductive Spec where
  | importSpec (path : String) (localAlias : Option String)
  | valueSpec (names : List String)
  | typeSpec (name : String)
  deriving DecidableEq

/-- A top-level go/ast declaration as far as generator.go looks at it: a
function declaration (with or without a receiver), a general declaration
with its token and specs, or any other declaration (the default branch of
the switch in DeclareFromTemplate). -/
inductive Decl where
  | funcDecl (name : String) (hasRecv : Bool)
  | genDecl (tok : Tok) (specs : List Spec)
  | badDecl
  deriving DecidableEq

/-- The errors produced by the embedded code.  Go uses opaque error
values built with fmt.Errorf; each constructor keeps the data that the
corresponding error message embeds, and Err.message renders the message
string.  castPanic models the Go runtime panic of a failed interface
type assertion in recordGenDeclNames. -/
inductive Err where
  | templateErr (msg : String)
  | parseFailed (diag : String) (text : String)
  | nameCollision (name : String)
  | dupImport (path : String)
  | explicitImportFailed (spec : Spec) (inner : Err)
  | constDeclFailed (name : String) (inner : Err)
  | typeDeclFailed (name : String) (inner : Err)
  | varDeclFailed (name : String) (inner : Err)
  | unknownDecl (tok : Tok)
  | castPanic
  deriving DecidableEq

/-- Generator state: the import registry entries (module path with its
assigned alias, in insertion order), the set of reserved root-scope
names, and the accepted declarations in acceptance order.  The per-kind
memo maps of the Go struct (listValueLists and friends) are initialized
in NewGenerator but never read or written in generator.go, so they are
omitted. -/
structure Generator where
  imports : List (String × String)
  names : Finset String
  decls : List Decl
  deriving DecidableEq

/-- NewGenerator sets up a new generator for Go code. -/
def NewGenerator : Generator :=
  { imports := [], names := ∅, decls := [] }

/-- The Go reserved keywords, which the symbol table refuses to claim. -/
def goKeywords : Finset String :=
  (["break", "case", "chan", "const", "continue", "default", "defer",
    "else", "fallthrough", "for", "func", "go", "goto", "if",
    "import", "interface", "map", "package", "range", "return",
    "select", "struct", "switch", "type", "var"] : List String).toFinset

/-- Decimal digit rendered as a character; only used on values below 10. -/
def digitChar (d : Nat) : Char :=
  match d with
  | 0 => '0'
  | 1 => '1'
  | 2 => '2'
  | 3 => '3'
  | 4 => '4'
  | 5 => '5'
  | 6 => '6'
  | 7 => '7'
  | 8 => '8'
  | _ => '9'

/-- Decimal rendering of a natural number (most significant digit
first). -/
def numStr (n : Nat) : String :=
  String.mk ((Nat.digits 10 n).reverse.map digitChar)

/-- Candidate names tried for a preferred name: the name itself, then
the name suffixed with 2, 3, and so on. -/
def candName (base : String) : Nat → String
  | 0 => base
  | k + 1 => base ++ numStr (k + 2)

/-- Fuelled search for the first candidate name not in the used set. -/
def freshAux (base : String) (used : Finset String) : Nat → Nat → String
  | 0, k => candName base k
  | fuel + 1, k =>
    if candName base k ∈ used then freshAux base used fuel (k + 1)
    else candName base k

/-- Modelled from the spec: namespace.NewName (the repository snapshot
lacks namespace.go).  Returns the preferred name if free, else a
deterministically numerically suffixed variant; always terminates and
never fails.  The fuel bound of one more than the size of the used set
suffices because the candidates are pairwise distinct. -/
def FreshName (used : Finset String) (base : String) : String :=
  freshAux base used (used.card + 1) 0

/-- Modelled from the spec: namespace.Reserve (the repository snapshot
lacks namespace.go).  Claims a name in the root scope; fails with a
name-collision error if the name is already claimed or is a Go reserved
keyword. -/
def Reserve (g : Generator) (name : String) : Option Err × Generator :=
  if name ∈ goKeywords ∨ name ∈ g.names then (some (Err.nameCollision name), g)
  else (none, { g with names := insert name g.names })

/-- Splits a character list on slashes. -/
def splitSlash : List Char → List (List Char)
  | [] => [[]]
  | c :: rest =>
    let r := splitSlash rest
    if c = '/' then [] :: r
    else
      match r with
      | [] => [[c]]
      | h :: t => (c :: h) :: t

/-- Trailing path component of a module path. -/
def lastComponent (path : String) : String :=
  String.mk ((splitSlash path.data).getLastD path.data)

/-- Lower-cases an ASCII letter, leaves other characters alone. -/
def lowerChar (c : Char) : Char :=
  if 'A' ≤ c ∧ c ≤ 'Z' then Char.ofNat (c.toNat + 32) else c

/-- Sanitizes a string into a valid lower-cased identifier by dropping
every character that is not a letter, a digit or an underscore. -/
def sanitizeIdent (s : String) : String :=
  String.mk ((s.data.map lowerChar).filter fun c =>
    c.isAlpha || c.isDigit || c == '_')

/-- Association-list lookup of a module path in the import registry. -/
def lookupPath (path : String) : List (String × String) → Option String
  | [] => none
  | (p, a) :: rest => if p = path then some a else lookupPath path rest

/-- Modelled from the spec: importer.Import (the repository snapshot
lacks importer.go).  Idempotent per module path; the first call derives
an alias from the sanitized, lower-cased trailing component of the path,
makes it fresh against the reserved names and the Go keywords, reserves
it and records the entry. -/
def Import (g : Generator) (path : String) : String × Generator :=
  match lookupPath path g.imports with
  | some a => (a, g)
  | none =>
    let a := FreshName (g.names ∪ goKeywords) (sanitizeIdent (lastComponent path))
    (a, { g with
            imports := g.imports ++ [(path, a)],
            names := insert a g.names })

/-- Modelled from the spec: importer.AddImportSpec (the repository
snapshot lacks importer.go).  Reconciles a literally-authored import
against the registry: accepted if it agrees with the alias already
recorded for its path, rejected with a duplicate-import error if it
conflicts with an alias already promised to generated code. -/
def AddImportSpec (g : Generator) (path : String) (localAlias : Option String) :
    Option Err × Generator :=
  let a := localAlias.getD (sanitizeIdent (lastComponent path))
  match lookupPath path g.imports with
  | some existing =>
    if existing = a then (none, g) else (some (Err.dupImport path), g)
  | none =>
    if a ∈ g.names then (some (Err.dupImport path), g)
    else
      (none, { g with
                 imports := g.imports ++ [(path, a)],
                 names := insert a g.names })

/-- The loop of recordGenDeclNames over the specs of an IMPORT
declaration: each ImportSpec is handed to AddImportSpec, a failure is
wrapped into an error naming the offending spec, and a spec of any other
shape models the Go type-assertion panic. -/
def addImportSpecs (g : Generator) : List Spec → Option Err × Generator
  | [] => (none, g)
  | s :: rest =>
    match s with
    | Spec.importSpec path la =>
      match AddImportSpec g path la with
      | (some e, g1) => (some (Err.explicitImportFailed s e), g1)
      | (none, g1) => addImportSpecs g1 rest
    | _ => (some Err.castPanic, g)

/-- One reconciliation step as a plain fold function: the state
AddImportSpec leaves behind on an import spec, ignoring failure (used to
state that a successful import loop reconciles every spec exactly once,
in order). -/
def addImportStep (gg : Generator) (sp : Spec) : Generator :=
  match sp with
  | Spec.importSpec p la => (AddImportSpec gg p la).2
  | _ => gg

/-- The inner loop of recordGenDeclNames over the names of one
ValueSpec; wrap builds the could-not-declare error around a reservation
failure. -/
def reserveValueNames (g : Generator) (wrap : String → Err → Err) :
    List String → Option Err × Generator
  | [] => (none, g)
  | n :: rest =>
    match Reserve g n with
    | (some e, g1) => (some (wrap n e), g1)
    | (none, g1) => reserveValueNames g1 wrap rest

/-- The loop of recordGenDeclNames over the specs of a CONST or VAR
declaration. -/
def reserveValueSpecs (g : Generator) (wrap : String → Err → Err) :
    List Spec → Option Err × Generator
  | [] => (none, g)
  | s :: rest =>
    match s with
    | Spec.valueSpec ns =>
      match reserveValueNames g wrap ns with
      | (some e, g1) => (some e, g1)
      | (none, g1) => reserveValueSpecs g1 wrap rest
    | _ => (some Err.castPanic, g)

/-- The loop of recordGenDeclNames over the specs of a TYPE
declaration. -/
def reserveTypeSpecs (g : Generator) : List Spec → Option Err × Generator
  | [] => (none, g)
  | s :: rest =>
    match s with
    | Spec.typeSpec n =>
      match Reserve g n with
      | (some e, g1) => (some (Err.typeDeclFailed n e), g1)
      | (none, g1) => reserveTypeSpecs g1 rest
    | _ => (some Err.castPanic, g)

/-- recordGenDeclNames from generator.go: dispatches on the token of a
general declaration, registering explicit imports and reserving
constant, type and variable names; any other token hits the
unknown-declaration default branch. -/
def recordGenDeclNames (g : Generator) (tok : Tok) (specs : List Spec) :
    Option Err × Generator :=
  match tok with
  | Tok.IMPORT => addImportSpecs g specs
  | Tok.CONST => reserveValueSpecs g Err.constDeclFailed specs
  | Tok.TYPE => reserveTypeSpecs g specs
  | Tok.VAR => reserveValueSpecs g Err.varDeclFailed specs
  | Tok.other => (some (Err.unknownDecl Tok.other), g)

/-- appendDecl appends a new declaration to the generator. -/
def appendDecl (g : Generator) (d : Decl) : Generator :=
  { g with decls := g.decls ++ [d] }

/-- The body of the declaration loop of DeclareFromTemplate for one
declaration: a top-level function name is reserved (a method, having a
receiver, is not), a general declaration goes through
recordGenDeclNames, anything else needs no special behavior; on success
the declaration is appended. -/
def processDecl (g : Generator) (d : Decl) : Option Err × Generator :=
  match d with
  | Decl.funcDecl n hasRecv =>
    match hasRecv with
    | true => (none, appendDecl g (Decl.funcDecl n true))
    | false =>
      match Reserve g n with
      | (some e, g1) => (some e, g1)
      | (none, g1) => (none, appendDecl g1 (Decl.funcDecl n false))
  | Decl.genDecl tok specs =>
    match recordGenDeclNames g tok specs with
    | (some e, g1) => (some e, g1)
    | (none, g1) => (none, appendDecl g1 (Decl.genDecl tok specs))
  | Decl.badDecl => (none, appendDecl g Decl.badDecl)

/-- The declaration loop of DeclareFromTemplate: declarations are
processed in order and the first error aborts the loop. -/
def processDecls (g : Generator) : List Decl → Option Err × Generator
  | [] => (none, g)
  | d :: rest =>
    match processDecl g d with
    | (some e, g1) => (some e, g1)
    | (none, g1) => processDecls g1 rest

/-- One step of an executing template: emit literal text, call the
template-exposed import function (emitting the alias it returns), or
abort with an execution error such as a reference to an undefined data
field.  This models the sequential, first-error-aborts execution of a
compiled text/template whose function map exposes g.Import. -/
inductive TAct where
  | emit (s : String)
  | callImport (path : String)
  | abort (msg : String)
  deriving DecidableEq

/-- Runs a template action trace against the generator, accumulating
output; an abort returns the error and discards nothing of the state
mutations already performed. -/
def runActs (g : Generator) (buff : String) : List TAct → Except String String × Generator
  | [] => (Except.ok buff, g)
  | TAct.emit s :: rest => runActs g (buff ++ s) rest
  | TAct.callImport p :: rest =>
    match Import g p with
    | (a, g1) => runActs g1 (buff ++ a) rest
  | TAct.abort msg :: _ => (Except.error msg, g)

/-- TextTemplate renders the given template with the given template
context.  The external text/template engine is the parameter tmplSem:
parsing the template source either fails or yields, per data object, the
trace of actions its execution performs.  On a parse or execution error
the returned string is empty; on success it is the accumulated
output. -/
def TextTemplate {D : Type} (tmplSem : String → Except String (D → List TAct))
    (g : Generator) (s : String) (data : D) : (String × Option String) × Generator :=
  match tmplSem s with
  | Except.error e => (("", some e), g)
  | Except.ok tr =>
    match runActs g "" (tr data) with
    | (Except.error e, g1) => (("", some e), g1)
    | (Except.ok out, g1) => ((out, none), g1)

/-- The fixed package clause prepended before parsing rendered text. -/
def pkgHeader : String := "package thriftrw\n\n"

/-- renderTemplate from generator.go: renders the template and prefixes
the fixed package header to the output. -/
def renderTemplate {D : Type} (tmplSem : String → Except String (D → List TAct))
    (g : Generator) (s : String) (data : D) : Except String String × Generator :=
  match TextTemplate tmplSem g s data with
  | ((_, some e), g1) => (Except.error e, g1)
  | ((out, none), g1) => (Except.ok (pkgHeader ++ out), g1)

/-- DeclareFromTemplate from generator.go: renders the template, parses
the result as a Go file through the external parser goParse, and runs
the declaration loop; a parse failure is wrapped into an error embedding
the diagnostic and the offending rendered text. -/
def DeclareFromTemplate {D : Type} (tmplSem : String → Except String (D → List TAct))
    (goParse : String → Except String (List Decl))
    (g : Generator) (s : String) (data : D) : Option Err × Generator :=
  match renderTemplate tmplSem g s data with
  | (Except.error e, g1) => (some (Err.templateErr e), g1)
  | (Except.ok bs, g1) =>
    match goParse bs with
    | Except.error e => (some (Err.parseFailed e bs), g1)
    | Except.ok ds => processDecls g1 ds

/-- Insertion of one registry entry into a list sorted by module path. -/
def insertByPath (pa : String × String) :
    List (String × String) → List (String × String)
  | [] => [pa]
  | q :: rest => if pa.1 ≤ q.1 then pa :: q :: rest else q :: insertByPath pa rest

/-- Insertion sort of registry entries by module path. -/
def sortByPath : List (String × String) → List (String × String)
  | [] => []
  | q :: rest => insertByPath q (sortByPath rest)

/-- Modelled from the spec: importer.importDecl (the repository snapshot
lacks importer.go).  Emits the consolidated import declaration, entries
sorted by module path, or nothing when no import was recorded. -/
def importDecl (g : Generator) : Option Decl :=
  if g.imports.isEmpty then none
  else
    some (Decl.genDecl Tok.IMPORT
      ((sortByPath g.imports).map fun pa => Spec.importSpec pa.1 (some pa.2)))

/-- The import block as a list of zero or one declarations. -/
def importBlock (g : Generator) : List Decl :=
  match importDecl g with
  | none => []
  | some d => [d]

/-- Write from generator.go: the declaration list of the synthetic
go/ast file handed to the canonical formatter, namely the consolidated
block of imports (when present) followed by the accepted declarations
in acceptance order.  The external formatter serializes the
declarations of the file in this order. -/
def Write (g : Generator) : List Decl :=
  importBlock g ++ g.decls

/-- Rendering of a spec for error messages, standing in for the %s
formatting of the go/ast node. -/
def specShow : Spec → String
  | Spec.importSpec path la =>
    match la with
    | some a => a ++ " " ++ path
    | none => path
  | Spec.valueSpec ns => String.intercalate ", " ns
  | Spec.typeSpec n => n

/-- The message text of each error, following the fmt.Errorf format
strings of generator.go (and, for the modelled registry and symbol-table
errors, a fixed rendering). -/
def Err.message : Err → String
  | Err.templateErr m => m
  | Err.parseFailed diag text =>
    "could not parse generated code: " ++ diag ++ ":\n" ++ text
  | Err.nameCollision n => "name already taken: " ++ n
  | Err.dupImport p => "duplicate import: " ++ p
  | Err.explicitImportFailed s e =>
    "could not add explicit import " ++ specShow s ++ ": " ++ Err.message e
  | Err.constDeclFailed n e =>
    "could not declare constant \"" ++ n ++ "\": " ++ Err.message e
  | Err.typeDeclFailed n e =>
    "could not declare type \"" ++ n ++ "\": " ++ Err.message e
  | Err.varDeclFailed n e =>
    "could not declare var \"" ++ n ++ "\": " ++ Err.message e
  | Err.unknownDecl _ => "unknown declaration"
  | Err.castPanic => "interface conversion panic"

/-- A string occurs somewhere inside another string. -/
def ContainsSubstr (needle hay : String) : Prop :=
  ∃ pre post, hay = pre ++ needle ++ post

/-- A string starts with the given text. -/
def StartsWith (p s : String) : Prop :=
  ∃ t, s = p ++ t

/-- The top-level names a declaration introduces into the root scope:
the name of a receiverless function, or the names of the value and type
specs of a CONST, TYPE or VAR declaration.  Methods, imports and other
declarations introduce none. -/
def specNames : Spec → List String
  | Spec.importSpec _ _ => []
  | Spec.valueSpec ns => ns
  | Spec.typeSpec n => [n]

/-- Declared top-level names of one declaration. -/
def declaredNames : Decl → List String
  | Decl.funcDecl n hasRecv => if hasRecv then [] else [n]
  | Decl.genDecl Tok.IMPORT _ => []
  | Decl.genDecl Tok.other _ => []
  | Decl.genDecl _ specs => (specs.map specNames).flatten
  | Decl.badDecl => []

/-- Invariant of the accepted-declaration list: the top-level names of
the accepted declarations are pairwise distinct, and each one is
reserved in the root scope. -/
def NamesInv (g : Generator) : Prop :=
  ((g.decls.map declaredNames).flatten).Nodup ∧
  ∀ d ∈ g.decls, ∀ n ∈ declaredNames d, n ∈ g.names

instance (g : Generator) : Decidable (NamesInv g) := by
  unfold NamesInv; infer_instance

/-- Invariant of the import registry: every assigned alias is a reserved
name, and the module paths and aliases recorded are pairwise
distinct. -/
def ImportInv (g : Generator) : Prop :=
  (∀ pa ∈ g.imports, pa.2 ∈ g.names) ∧
  (g.imports.map Prod.fst).Nodup ∧
  (g.imports.map Prod.snd).Nodup

instance (g : Generator) : Decidable (ImportInv g) := by
  unfold ImportInv; infer_instance

/-- A successful run of DeclareFromTemplate calls: relates a starting
generator, the list of template calls, the per-call lists of parsed
declarations and the final generator, recording for each call the text
it rendered and the declarations the parser produced from it. -/
inductive RunOk {D : Type} (tmplSem : String → Except String (D → List TAct))
    (goParse : String → Except String (List Decl)) :
    Generator → List (String × D) → List (List Decl) → Generator → Prop where
  | nil (g : Generator) : RunOk tmplSem goParse g [] [] g
  | cons {g gR gmid gfin : Generator} {s bs : String} {d : D} {ds : List Decl}
      {calls : List (String × D)} {dss : List (List Decl)}
      (hrender : renderTemplate tmplSem g s d = (Except.ok bs, gR))
      (hparse : goParse bs = Except.ok ds)
      (hcall : DeclareFromTemplate tmplSem goParse g s d = (none, gmid))
      (htail : RunOk tmplSem goParse gmid calls dss gfin) :
      RunOk tmplSem goParse g ((s, d) :: calls) (ds :: dss) gfin

/-- A template with no directives renders to its own source text. -/
def emitEngine : String → Except String (Unit → List TAct) :=
  fun s => Except.ok (fun _ => [TAct.emit s])

/-- A template whose execution calls the import function on the strings
package and then fails on an undefined data field. -/
def importAbortEngine : String → Except String (Unit → List TAct) :=
  fun _ => Except.ok (fun _ =>
    [TAct.callImport "strings",
     TAct.abort "template: thriftrw: executing: undefined field Missing"])

/-- A template whose execution fails immediately on an undefined data
field, emitting nothing. -/
def abortEngine : String → Except String (Unit → List TAct) :=
  fun _ => Except.ok (fun _ =>
    [TAct.abort "template: thriftrw: executing: undefined field Missing"])

/-- A template whose execution calls the import function on the strings
package and then emits text that is not valid Go. -/
def importGarbageEngine : String → Except String (Unit → List TAct) :=
  fun _ => Except.ok (fun _ =>
    [TAct.callImport "strings", TAct.emit "]] not go code"])

/-- A concrete stand-in for go/parser on the handful of rendered texts
the witnesses use: well-formed fragments map to their declaration lists
and anything else is a parse error. -/
def tableParse : String → Except String (List Decl) :=
  fun s =>
    if s = pkgHeader ++ "type A int\ntype A int" then
      Except.ok [Decl.genDecl Tok.TYPE [Spec.typeSpec "A"],
                 Decl.genDecl Tok.TYPE [Spec.typeSpec "A"]]
    else if s = pkgHeader ++ "type Foo int32" then
      Except.ok [Decl.genDecl Tok.TYPE [Spec.typeSpec "Foo"]]
    else if s = pkgHeader ++ "func F()" then
      Except.ok [Decl.funcDecl "F" false]
    else if s = pkgHeader ++ "func (t T) M()" then
      Except.ok [Decl.funcDecl "M" true]
    else
      Except.error "1:1: expected declaration, found garbage"

/-- Boolean test that the first character list leads the second one. -/
def leadChars : List Char → List Char → Bool
  | [], _ => true
  | _ :: _, [] => false
  | c :: cs, d :: ds2 => c == d && leadChars cs ds2

/-- A concrete stand-in for go/parser that rejects exactly the inputs
carrying a second package clause right after the fixed header, as the
real Go grammar does, and parses everything else to an empty file. -/
def pkgParse : String → Except String (List Decl) :=
  fun s =>
    if leadChars (pkgHeader ++ "package").data s.data then
      Except.error "3:1: expected declaration, found package"
    else Except.ok []

/-! Lemmas about the fresh-name search. -/

theorem digitChar_inj :
    ∀ a, a < 10 → ∀ b, b < 10 → digitChar a = digitChar b → a = b := by
  decide

theorem map_digitChar_inj (l1 : List Nat) :
    ∀ l2 : List Nat, (∀ d ∈ l1, d < 10) → (∀ d ∈ l2, d < 10) →
      l1.map digitChar = l2.map digitChar → l1 = l2 := by
  induction l1 with
  | nil =>
    intro l2 _ _ h
    cases l2 <;> simp_all
  | cons a t ih =>
    intro l2 h1 h2 h
    cases l2 with
    | nil => simp at h
    | cons b t2 =>
      simp only [List.map_cons, List.cons.injEq] at h
      have ha : a < 10 := h1 a (by simp)
      have hb : b < 10 := h2 b (by simp)
      have hab := digitChar_inj a ha b hb h.1
      subst hab
      have ht := ih t2 (fun d hd => h1 d (by simp [hd]))
        (fun d hd => h2 d (by simp [hd])) h.2
      simp [ht]

theorem numStr_inj {m n : Nat} (h : numStr m = numStr n) : m = n := by
  unfold numStr at h
  have hdata := congrArg String.data h
  have hmap : (Nat.digits 10 m).reverse.map digitChar
      = (Nat.digits 10 n).reverse.map digitChar := hdata
  have hrev := map_digitChar_inj _ _
    (fun d hd => Nat.digits_lt_base (by norm_num) (List.mem_reverse.mp hd))
    (fun d hd => Nat.digits_lt_base (by norm_num) (List.mem_reverse.mp hd))
    hmap
  have hdig : Nat.digits 10 m = Nat.digits 10 n := List.reverse_inj.mp hrev
  exact Nat.digits_inj_iff.mp hdig

theorem numStr_ne_empty {n : Nat} (h : n ≠ 0) : numStr n ≠ "" := by
  intro he
  have hdata := congrArg String.data he
  have hnil : (Nat.digits 10 n).reverse.map digitChar = [] := hdata
  rw [List.map_eq_nil_iff, List.reverse_eq_nil_iff] at hnil
  exact (Nat.digits_ne_nil_iff_ne_zero.mpr h) hnil

theorem candName_inj (base : String) :
    ∀ {j k : Nat}, candName base j = candName base k → j = k := by
  have base_ne : ∀ m : Nat, base = base ++ numStr (m + 2) → False := by
    intro m h
    have hdata := congrArg String.data h
    rw [String.data_append] at hdata
    have hlen := congrArg List.length hdata
    rw [List.length_append] at hlen
    have hzero : (numStr (m + 2)).data.length = 0 := by omega
    have hnil : (numStr (m + 2)).data = [] := List.length_eq_zero.mp hzero
    exact numStr_ne_empty (by omega) (String.ext hnil)
  intro j k h
  match j, k with
  | 0, 0 => rfl
  | 0, k + 1 => exact absurd (base_ne k h) (by simp)
  | j + 1, 0 => exact absurd (base_ne j h.symm) (by simp)
  | j + 1, k + 1 =>
    have hdata := congrArg String.data h
    simp only [candName] at hdata
    rw [String.data_append, String.data_append] at hdata
    have hsuffix := List.append_cancel_left hdata
    have := numStr_inj (String.ext hsuffix)
    omega

theorem freshAux_not_mem (base : String) (used : Finset String) :
    ∀ fuel k, (∃ j, j < fuel ∧ candName base (k + j) ∉ used) →
      freshAux base used fuel k ∉ used := by
  intro fuel
  induction fuel with
  | zero =>
    rintro k ⟨j, hj, _⟩
    omega
  | succ f ih =>
    rintro k ⟨j, hj, hnot⟩
    unfold freshAux
    by_cases hmem : candName base k ∈ used
    · rw [if_pos hmem]
      apply ih
      match j, hj with
      | 0, _ => exact absurd (by simpa using hmem) hnot
      | j' + 1, hj =>
        refine ⟨j', by omega, ?_⟩
        have : k + 1 + j' = k + (j' + 1) := by omega
        rw [this]
        exact hnot
    · rw [if_neg hmem]
      exact hmem

theorem exists_fresh (base : String) (used : Finset String) :
    ∃ j, j < used.card + 1 ∧ candName base j ∉ used := by
  by_contra hcon
  push_neg at hcon
  have hinj : Set.InjOn (candName base) (Finset.range (used.card + 1)) :=
    fun a _ b _ h => candName_inj base h
  have hle := Finset.card_le_card_of_injOn (candName base)
    (fun a ha => hcon a (Finset.mem_range.mp ha)) hinj
  rw [Finset.card_range] at hle
  omega

theorem FreshName_not_mem (used : Finset String) (base : String) :
    FreshName used base ∉ used := by
  unfold FreshName
  apply freshAux_not_mem
  obtain ⟨j, hj, hn⟩ := exists_fresh base used
  exact ⟨j, hj, by simpa using hn⟩

/-! Lemmas about the import registry lookup. -/

theorem lookupPath_mem_pair :
    ∀ (l : List (String × String)) {path a : String},
      lookupPath path l = some a → (path, a) ∈ l := by
  intro l
  induction l with
  | nil =>
    intro path a h
    exact absurd h (by simp [lookupPath])
  | cons q rest ih =>
    intro path a h
    obtain ⟨p, b⟩ := q
    by_cases hp : p = path
    · rw [lookupPath, if_pos hp] at h
      injection h with h
      subst hp
      subst h
      exact List.mem_cons_self _ _
    · rw [lookupPath, if_neg hp] at h
      exact List.mem_cons_of_mem _ (ih h)

theorem lookupPath_none :
    ∀ (l : List (String × String)) {path : String},
      lookupPath path l = none → path ∉ l.map Prod.fst := by
  intro l
  induction l with
  | nil =>
    intro path _
    simp
  | cons q rest ih =>
    intro path h
    obtain ⟨p, b⟩ := q
    by_cases hp : p = path
    · rw [lookupPath, if_pos hp] at h
      cases h
    · rw [lookupPath, if_neg hp] at h
      simp only [List.map_cons, List.mem_cons]
      rintro (h1 | h1)
      · exact hp h1.symm
      · exact ih h h1

theorem lookupPath_append_self :
    ∀ (l : List (String × String)) (path a : String),
      lookupPath path l = none → lookupPath path (l ++ [(path, a)]) = some a := by
  intro l
  induction l with
  | nil =>
    intro path a _
    simp [lookupPath]
  | cons q rest ih =>
    intro path a h
    obtain ⟨p, b⟩ := q
    by_cases hp : p = path
    · rw [lookupPath, if_pos hp] at h
      cases h
    · rw [lookupPath, if_neg hp] at h
      rw [List.cons_append, lookupPath, if_neg hp]
      exact ih path a h

theorem lookupPath_append_ne :
    ∀ (l : List (String × String)) {q p a : String}, p ≠ q →
      lookupPath q (l ++ [(p, a)]) = lookupPath q l := by
  intro l
  induction l with
  | nil =>
    intro q p a hne
    simp [lookupPath, hne]
  | cons x rest ih =>
    intro q p a hne
    obtain ⟨r, b⟩ := x
    by_cases hr : r = q
    · rw [List.cons_append, lookupPath, if_pos hr, lookupPath, if_pos hr]
    · rw [List.cons_append, lookupPath, if_neg hr, lookupPath, if_neg hr]
      exact ih hne

theorem lookupPath_ne_of_nodup :
    ∀ (l : List (String × String)) {p q a b : String},
      (l.map Prod.snd).Nodup → p ≠ q →
      lookupPath p l = some a → lookupPath q l = some b → a ≠ b := by
  intro l
  induction l with
  | nil =>
    intro p q a b _ _ h
    cases h
  | cons x rest ih =>
    intro p q a b hnd hpq hp hq
    obtain ⟨r, c⟩ := x
    simp only [List.map_cons, List.nodup_cons] at hnd
    by_cases hrp : r = p
    · rw [lookupPath, if_pos hrp] at hp
      injection hp with hca
      have hrq : ¬r = q := by
        rw [hrp]
        exact hpq
      rw [lookupPath, if_neg hrq] at hq
      have hb : (q, b) ∈ rest := lookupPath_mem_pair rest hq
      have hbmem : b ∈ rest.map Prod.snd := List.mem_map_of_mem Prod.snd hb
      intro hab
      have hcmem : c ∈ List.map Prod.snd rest := by
        rw [hca, hab]
        exact hbmem
      exact hnd.1 hcmem
    · rw [lookupPath, if_neg hrp] at hp
      by_cases hrq : r = q
      · rw [lookupPath, if_pos hrq] at hq
        injection hq with hcb
        have ha : (p, a) ∈ rest := lookupPath_mem_pair rest hp
        have hamem : a ∈ rest.map Prod.snd := List.mem_map_of_mem Prod.snd ha
        intro hab
        have hcmem : c ∈ List.map Prod.snd rest := by
          rw [hcb, ← hab]
          exact hamem
        exact hnd.1 hcmem
      · rw [lookupPath, if_neg hrq] at hq
        exact ih hnd.2 hpq hp hq

/-! Lemmas unfolding Import on the two lookup outcomes. -/

theorem Import_lookup_some {g : Generator} {p a : String}
    (h : lookupPath p g.imports = some a) : Import g p = (a, g) := by
  unfold Import
  rw [h]

theorem Import_lookup_none {g : Generator} {p : String}
    (h : lookupPath p g.imports = none) :
    Import g p =
      (FreshName (g.names ∪ goKeywords) (sanitizeIdent (lastComponent p)),
       { g with
           imports := g.imports ++
             [(p, FreshName (g.names ∪ goKeywords) (sanitizeIdent (lastComponent p)))],
           names := insert
             (FreshName (g.names ∪ goKeywords) (sanitizeIdent (lastComponent p)))
             g.names }) := by
  unfold Import
  rw [h]

theorem Import_alias_not_free {g : Generator} {p : String}
    (h : lookupPath p g.imports = none) :
    (Import g p).1 ∉ g.names := by
  rw [Import_lookup_none h]
  intro hmem
  exact FreshName_not_mem (g.names ∪ goKeywords)
    (sanitizeIdent (lastComponent p)) (Finset.mem_union_left _ hmem)

theorem Import_alias_mem {g : Generator} {p a : String}
    (hinv : ImportInv g) (h : lookupPath p g.imports = some a) :
    a ∈ g.names := by
  have hpair := lookupPath_mem_pair g.imports h
  exact hinv.1 (p, a) hpair

/-! State-evolution lemmas for the symbol table and the declaration
loops. -/

theorem Reserve_some {g : Generator} {n : String} {e : Err} {g1 : Generator}
    (h : Reserve g n = (some e, g1)) :
    g1 = g ∧ e = Err.nameCollision n ∧ (n ∈ goKeywords ∨ n ∈ g.names) := by
  unfold Reserve at h
  by_cases hc : n ∈ goKeywords ∨ n ∈ g.names
  · rw [if_pos hc] at h
    injection h with h1 h2
    injection h1 with h1
    exact ⟨h2.symm, h1.symm, hc⟩
  · rw [if_neg hc] at h
    injection h with h1 h2
    cases h1

theorem Reserve_none {g : Generator} {n : String} {g1 : Generator}
    (h : Reserve g n = (none, g1)) :
    g1 = { g with names := insert n g.names } ∧ n ∉ goKeywords ∧ n ∉ g.names := by
  unfold Reserve at h
  by_cases hc : n ∈ goKeywords ∨ n ∈ g.names
  · rw [if_pos hc] at h
    injection h with h1 h2
    cases h1
  · rw [if_neg hc] at h
    injection h with h1 h2
    push_neg at hc
    exact ⟨h2.symm, hc.1, hc.2⟩

theorem reserveValueNames_facts (wrap : String → Err → Err) :
    ∀ (ns : List String) (g : Generator) (r : Option Err) (g1 : Generator),
      reserveValueNames g wrap ns = (r, g1) →
      (g1.decls = g.decls ∧ g1.imports = g.imports ∧ g.names ⊆ g1.names) ∧
      (r = none → ns.Nodup ∧ ∀ n ∈ ns, n ∈ g1.names ∧ n ∉ g.names) := by
  intro ns
  induction ns with
  | nil =>
    intro g r g1 h
    rw [reserveValueNames] at h
    injection h with h1 h2
    subst h2
    refine ⟨⟨rfl, rfl, Finset.Subset.refl _⟩, fun _ => ⟨List.nodup_nil, by simp⟩⟩
  | cons n rest ih =>
    intro g r g1 h
    rw [reserveValueNames] at h
    split at h
    case _ e gA heq =>
      injection h with h1 h2
      subst h1
      subst h2
      obtain ⟨hgA, _, _⟩ := Reserve_some heq
      subst hgA
      refine ⟨⟨rfl, rfl, Finset.Subset.refl _⟩, fun hn => by cases hn⟩
    case _ gA heq =>
      obtain ⟨hgA, hkw, hmem⟩ := Reserve_none heq
      subst hgA
      obtain ⟨⟨hdecls, himps, hsub⟩, hok⟩ := ih _ _ _ h
      refine ⟨⟨hdecls, himps, ?_⟩, ?_⟩
      · exact Finset.Subset.trans (Finset.subset_insert _ _) hsub
      · intro hr
        obtain ⟨hnd, hall⟩ := hok hr
        refine ⟨?_, ?_⟩
        · rw [List.nodup_cons]
          refine ⟨fun hmemrest => ?_, hnd⟩
          exact (hall n hmemrest).2 (Finset.mem_insert_self _ _)
        · intro m hm
          rcases List.mem_cons.mp hm with hm1 | hm1
          · subst hm1
            exact ⟨hsub (Finset.mem_insert_self _ _), hmem⟩
          · obtain ⟨hin, hnotin⟩ := hall m hm1
            refine ⟨hin, fun hmg => ?_⟩
            exact hnotin (Finset.mem_insert_of_mem hmg)

theorem AddImportSpec_state {g : Generator} {p : String} {la : Option String}
    {r : Option Err} {g1 : Generator} (h : AddImportSpec g p la = (r, g1)) :
    g1.decls = g.decls ∧ g.names ⊆ g1.names := by
  simp only [AddImportSpec] at h
  split at h
  · split at h
    · injection h with h1 h2
      subst h2
      exact ⟨rfl, Finset.Subset.refl _⟩
    · injection h with h1 h2
      subst h2
      exact ⟨rfl, Finset.Subset.refl _⟩
  · split at h
    · injection h with h1 h2
      subst h2
      exact ⟨rfl, Finset.Subset.refl _⟩
    · injection h with h1 h2
      subst h2
      exact ⟨rfl, Finset.subset_insert _ _⟩

theorem addImportSpecs_facts :
    ∀ (specs : List Spec) (g : Generator) (r : Option Err) (g1 : Generator),
      addImportSpecs g specs = (r, g1) →
      g1.decls = g.decls ∧ g.names ⊆ g1.names := by
  intro specs
  induction specs with
  | nil =>
    intro g r g1 h
    rw [addImportSpecs] at h
    injection h with h1 h2
    subst h2
    exact ⟨rfl, Finset.Subset.refl _⟩
  | cons s rest ih =>
    intro g r g1 h
    cases s with
    | importSpec path la =>
      rw [addImportSpecs] at h
      split at h
      case _ e gA heq =>
        injection h with h1 h2
        subst h2
        exact AddImportSpec_state heq
      case _ gA heq =>
        obtain ⟨hd, hs⟩ := AddImportSpec_state heq
        obtain ⟨hd2, hs2⟩ := ih _ _ _ h
        exact ⟨hd2.trans hd, Finset.Subset.trans hs hs2⟩
    | valueSpec ns =>
      rw [addImportSpecs] at h
      · injection h with h1 h2
        subst h2
        exact ⟨rfl, Finset.Subset.refl _⟩
      · intro path la hcon
        cases hcon
    | typeSpec n =>
      rw [addImportSpecs] at h
      · injection h with h1 h2
        subst h2
        exact ⟨rfl, Finset.Subset.refl _⟩
      · intro path la hcon
        cases hcon

theorem reserveTypeSpecs_facts :
    ∀ (specs : List Spec) (g : Generator) (r : Option Err) (g1 : Generator),
      reserveTypeSpecs g specs = (r, g1) →
      (g1.decls = g.decls ∧ g1.imports = g.imports ∧ g.names ⊆ g1.names) ∧
      (r = none →
        ((specs.map specNames).flatten).Nodup ∧
        ∀ n ∈ (specs.map specNames).flatten, n ∈ g1.names ∧ n ∉ g.names) := by
  intro specs
  induction specs with
  | nil =>
    intro g r g1 h
    rw [reserveTypeSpecs] at h
    injection h with h1 h2
    subst h2
    exact ⟨⟨rfl, rfl, Finset.Subset.refl _⟩, fun _ => ⟨by simp, by simp⟩⟩
  | cons s rest ih =>
    intro g r g1 h
    cases s with
    | typeSpec n =>
      rw [reserveTypeSpecs] at h
      split at h
      case _ e gA heq =>
        injection h with h1 h2
        subst h1
        subst h2
        obtain ⟨hgA, _, _⟩ := Reserve_some heq
        subst hgA
        exact ⟨⟨rfl, rfl, Finset.Subset.refl _⟩, fun hr => by cases hr⟩
      case _ gA heq =>
        obtain ⟨hgA, hkw, hmem⟩ := Reserve_none heq
        subst hgA
        obtain ⟨⟨hdecls, himps, hsub⟩, hok⟩ := ih _ _ _ h
        refine ⟨⟨hdecls, himps,
          Finset.Subset.trans (Finset.subset_insert _ _) hsub⟩, ?_⟩
        intro hr
        obtain ⟨hnd, hall⟩ := hok hr
        simp only [List.map_cons, List.flatten_cons, specNames,
          List.singleton_append]
        refine ⟨List.nodup_cons.mpr ⟨fun hmemrest => ?_, hnd⟩, ?_⟩
        · exact (hall n hmemrest).2 (Finset.mem_insert_self _ _)
        · intro m hm
          rcases List.mem_cons.mp hm with hm1 | hm1
          · subst hm1
            exact ⟨hsub (Finset.mem_insert_self _ _), hmem⟩
          · obtain ⟨hin, hnotin⟩ := hall m hm1
            exact ⟨hin, fun hmg => hnotin (Finset.mem_insert_of_mem hmg)⟩
    | importSpec path la =>
      rw [reserveTypeSpecs] at h
      · injection h with h1 h2
        subst h2
        exact ⟨⟨rfl, rfl, Finset.Subset.refl _⟩, fun hr => by
          rw [← h1] at hr
          cases hr⟩
      · intro n hcon
        cases hcon
    | valueSpec ns =>
      rw [reserveTypeSpecs] at h
      · injection h with h1 h2
        subst h2
        exact ⟨⟨rfl, rfl, Finset.Subset.refl _⟩, fun hr => by
          rw [← h1] at hr
          cases hr⟩
      · intro n hcon
        cases hcon

theorem reserveValueSpecs_facts (wrap : String → Err → Err) :
    ∀ (specs : List Spec) (g : Generator) (r : Option Err) (g1 : Generator),
      reserveValueSpecs g wrap specs = (r, g1) →
      (g1.decls = g.decls ∧ g1.imports = g.imports ∧ g.names ⊆ g1.names) ∧
      (r = none →
        ((specs.map specNames).flatten).Nodup ∧
        ∀ n ∈ (specs.map specNames).flatten, n ∈ g1.names ∧ n ∉ g.names) := by
  intro specs
  induction specs with
  | nil =>
    intro g r g1 h
    rw [reserveValueSpecs] at h
    injection h with h1 h2
    subst h2
    exact ⟨⟨rfl, rfl, Finset.Subset.refl _⟩, fun _ => ⟨by simp, by simp⟩⟩
  | cons s rest ih =>
    intro g r g1 h
    cases s with
    | valueSpec ns =>
      rw [reserveValueSpecs] at h
      split at h
      case _ e gA heq =>
        injection h with h1 h2
        subst h1
        subst h2
        obtain ⟨⟨hd, hi, hs⟩, _⟩ := reserveValueNames_facts wrap ns g _ _ heq
        exact ⟨⟨hd, hi, hs⟩, fun hr => by cases hr⟩
      case _ gA heq =>
        obtain ⟨⟨hdA, hiA, hsA⟩, hokA⟩ := reserveValueNames_facts wrap ns g _ _ heq
        obtain ⟨hndA, hallA⟩ := hokA rfl
        obtain ⟨⟨hd, hi, hs⟩, hok⟩ := ih _ _ _ h
        refine ⟨⟨hd.trans hdA, hi.trans hiA,
          Finset.Subset.trans hsA hs⟩, ?_⟩
        intro hr
        obtain ⟨hnd, hall⟩ := hok hr
        simp only [List.map_cons, List.flatten_cons, specNames]
        rw [List.nodup_append]
        refine ⟨⟨hndA, hnd, ?_⟩, ?_⟩
        · intro m hmA hmRest
          exact (hall m hmRest).2 ((hallA m hmA).1)
        · intro m hm
          rcases List.mem_append.mp hm with hm1 | hm1
          · obtain ⟨hin, hnotin⟩ := hallA m hm1
            exact ⟨hs hin, hnotin⟩
          · obtain ⟨hin, hnotin⟩ := hall m hm1
            exact ⟨hin, fun hg => hnotin (hsA hg)⟩
    | importSpec path la =>
      rw [reserveValueSpecs] at h
      · injection h with h1 h2
        subst h2
        exact ⟨⟨rfl, rfl, Finset.Subset.refl _⟩, fun hr => by
          rw [← h1] at hr
          cases hr⟩
      · intro ns2 hcon
        cases hcon
    | typeSpec n =>
      rw [reserveValueSpecs] at h
      · injection h with h1 h2
        subst h2
        exact ⟨⟨rfl, rfl, Finset.Subset.refl _⟩, fun hr => by
          rw [← h1] at hr
          cases hr⟩
      · intro ns2 hcon
        cases hcon

/-! Computed forms of declaredNames for each shape of declaration. -/

theorem declaredNames_func_recv (n : String) :
    declaredNames (Decl.funcDecl n true) = [] := rfl

theorem declaredNames_func_top (n : String) :
    declaredNames (Decl.funcDecl n false) = [n] := rfl

theorem declaredNames_IMPORT (specs : List Spec) :
    declaredNames (Decl.genDecl Tok.IMPORT specs) = [] := rfl

theorem declaredNames_CONST (specs : List Spec) :
    declaredNames (Decl.genDecl Tok.CONST specs) = (specs.map specNames).flatten := rfl

theorem declaredNames_TYPE (specs : List Spec) :
    declaredNames (Decl.genDecl Tok.TYPE specs) = (specs.map specNames).flatten := rfl

theorem declaredNames_VAR (specs : List Spec) :
    declaredNames (Decl.genDecl Tok.VAR specs) = (specs.map specNames).flatten := rfl

theorem declaredNames_other (specs : List Spec) :
    declaredNames (Decl.genDecl Tok.other specs) = [] := rfl

theorem recordGenDeclNames_facts {g : Generator} {tok : Tok} {specs : List Spec}
    {r : Option Err} {g1 : Generator}
    (h : recordGenDeclNames g tok specs = (r, g1)) :
    g1.decls = g.decls ∧ g.names ⊆ g1.names ∧
    (r = none →
      (declaredNames (Decl.genDecl tok specs)).Nodup ∧
      ∀ n ∈ declaredNames (Decl.genDecl tok specs), n ∈ g1.names ∧ n ∉ g.names) := by
  cases tok with
  | IMPORT =>
    rw [recordGenDeclNames] at h
    obtain ⟨hd, hs⟩ := addImportSpecs_facts _ _ _ _ h
    exact ⟨hd, hs, fun _ => by simp [declaredNames_IMPORT]⟩
  | CONST =>
    rw [recordGenDeclNames] at h
    obtain ⟨⟨hd, _, hs⟩, hok⟩ := reserveValueSpecs_facts _ _ _ _ _ h
    refine ⟨hd, hs, fun hr => ?_⟩
    rw [declaredNames_CONST]
    exact hok hr
  | TYPE =>
    rw [recordGenDeclNames] at h
    obtain ⟨⟨hd, _, hs⟩, hok⟩ := reserveTypeSpecs_facts _ _ _ _ h
    refine ⟨hd, hs, fun hr => ?_⟩
    rw [declaredNames_TYPE]
    exact hok hr
  | VAR =>
    rw [recordGenDeclNames] at h
    obtain ⟨⟨hd, _, hs⟩, hok⟩ := reserveValueSpecs_facts _ _ _ _ _ h
    refine ⟨hd, hs, fun hr => ?_⟩
    rw [declaredNames_VAR]
    exact hok hr
  | other =>
    rw [recordGenDeclNames] at h
    injection h with h1 h2
    subst h2
    exact ⟨rfl, Finset.Subset.refl _, fun hr => by
      rw [← h1] at hr
      cases hr⟩

theorem processDecl_some {g : Generator} {d : Decl} {e : Err} {g1 : Generator}
    (h : processDecl g d = (some e, g1)) :
    g1.decls = g.decls ∧ g.names ⊆ g1.names := by
  cases d with
  | funcDecl n hasRecv =>
    cases hasRecv with
    | true =>
      rw [processDecl] at h
      injection h with h1 h2
      cases h1
    | false =>
      rw [processDecl] at h
      split at h
      case _ e2 gA heq =>
        injection h with h1 h2
        subst h2
        obtain ⟨hgA, _, _⟩ := Reserve_some heq
        subst hgA
        exact ⟨rfl, Finset.Subset.refl _⟩
      case _ gA heq =>
        injection h with h1 h2
        cases h1
  | genDecl tok specs =>
    rw [processDecl] at h
    split at h
    case _ e2 gA heq =>
      injection h with h1 h2
      subst h2
      obtain ⟨hd, hs, _⟩ := recordGenDeclNames_facts heq
      exact ⟨hd, hs⟩
    case _ gA heq =>
      injection h with h1 h2
      cases h1
  | badDecl =>
    rw [processDecl] at h
    injection h with h1 h2
    cases h1

theorem processDecl_none {g : Generator} {d : Decl} {g1 : Generator}
    (h : processDecl g d = (none, g1)) :
    g1.decls = g.decls ++ [d] ∧ g.names ⊆ g1.names ∧
    (declaredNames d).Nodup ∧
    ∀ n ∈ declaredNames d, n ∈ g1.names ∧ n ∉ g.names := by
  cases d with
  | funcDecl n hasRecv =>
    cases hasRecv with
    | true =>
      rw [processDecl] at h
      injection h with h1 h2
      subst h2
      refine ⟨rfl, Finset.Subset.refl _, by simp [declaredNames_func_recv],
        by simp [declaredNames_func_recv]⟩
    | false =>
      rw [processDecl] at h
      split at h
      case _ e2 gA heq =>
        injection h with h1 h2
        cases h1
      case _ gA heq =>
        injection h with h1 h2
        subst h2
        obtain ⟨hgA, hkw, hmem⟩ := Reserve_none heq
        subst hgA
        refine ⟨rfl, Finset.subset_insert _ _,
          by simp [declaredNames_func_top], ?_⟩
        intro m hm
        rw [declaredNames_func_top] at hm
        rcases List.mem_singleton.mp hm with rfl
        exact ⟨Finset.mem_insert_self _ _, hmem⟩
  | genDecl tok specs =>
    rw [processDecl] at h
    split at h
    case _ e2 gA heq =>
      injection h with h1 h2
      cases h1
    case _ gA heq =>
      injection h with h1 h2
      subst h2
      obtain ⟨hd, hs, hok⟩ := recordGenDeclNames_facts heq
      obtain ⟨hnd, hall⟩ := hok rfl
      refine ⟨by rw [appendDecl, hd], hs, hnd, ?_⟩
      intro m hm
      exact hall m hm
  | badDecl =>
    rw [processDecl] at h
    injection h with h1 h2
    subst h2
    exact ⟨rfl, Finset.Subset.refl _, by simp [declaredNames], by simp [declaredNames]⟩

theorem processDecls_none :
    ∀ (ds : List Decl) (g g1 : Generator),
      processDecls g ds = (none, g1) →
      g1.decls = g.decls ++ ds ∧ g.names ⊆ g1.names := by
  intro ds
  induction ds with
  | nil =>
    intro g g1 h
    rw [processDecls] at h
    injection h with h1 h2
    subst h2
    exact ⟨by simp, Finset.Subset.refl _⟩
  | cons d rest ih =>
    intro g g1 h
    rw [processDecls] at h
    split at h
    case _ e gA heq =>
      injection h with h1 h2
      cases h1
    case _ gA heq =>
      obtain ⟨hd, hs, _, _⟩ := processDecl_none heq
      obtain ⟨hd2, hs2⟩ := ih _ _ h
      refine ⟨?_, Finset.Subset.trans hs hs2⟩
      rw [hd2, hd]
      simp

theorem processDecls_some :
    ∀ (ds : List Decl) (g : Generator) (e : Err) (g1 : Generator),
      processDecls g ds = (some e, g1) →
      ∃ pre d post gp,
        ds = pre ++ d :: post ∧
        processDecls g pre = (none, gp) ∧
        processDecl gp d = (some e, g1) ∧
        gp.decls = g.decls ++ pre ∧
        g1.decls = g.decls ++ pre ∧
        g.names ⊆ g1.names := by
  intro ds
  induction ds with
  | nil =>
    intro g e g1 h
    rw [processDecls] at h
    injection h with h1 h2
    cases h1
  | cons d rest ih =>
    intro g e g1 h
    rw [processDecls] at h
    split at h
    case _ e2 gA heq =>
      injection h with h1 h2
      subst h2
      injection h1 with h1
      subst h1
      obtain ⟨hd, hs⟩ := processDecl_some heq
      exact ⟨[], d, rest, g, by simp, by rw [processDecls], heq,
        by simp, by simp [hd], hs⟩
    case _ gA heq =>
      obtain ⟨hd, hs, _, _⟩ := processDecl_none heq
      obtain ⟨pre, d2, post, gp, hds, hpre, hfail, hgp, hg1, hs2⟩ := ih _ _ _ h
      refine ⟨d :: pre, d2, post, gp, by simp [hds], ?_, hfail, ?_, ?_,
        Finset.Subset.trans hs hs2⟩
      · rw [processDecls, heq]
        exact hpre
      · rw [hgp, hd]
        simp
      · rw [hg1, hd]
        simp

theorem NamesInv_mem {g : Generator} (hinv : NamesInv g) {m : String}
    (hm : m ∈ (g.decls.map declaredNames).flatten) : m ∈ g.names := by
  obtain ⟨l, hl, hml⟩ := List.mem_flatten.mp hm
  obtain ⟨d2, hd2, rfl⟩ := List.mem_map.mp hl
  exact hinv.2 d2 hd2 m hml

theorem processDecl_NamesInv {g : Generator} {d : Decl} {r : Option Err}
    {g1 : Generator} (h : processDecl g d = (r, g1)) (hinv : NamesInv g) :
    NamesInv g1 := by
  cases r with
  | some e =>
    obtain ⟨hd, hs⟩ := processDecl_some h
    constructor
    · rw [hd]
      exact hinv.1
    · intro d2 hd2 n hn
      rw [hd] at hd2
      exact hs (hinv.2 d2 hd2 n hn)
  | none =>
    obtain ⟨hd, hs, hnd, hall⟩ := processDecl_none h
    constructor
    · rw [hd]
      simp only [List.map_append, List.flatten_append, List.map_cons,
        List.map_nil, List.flatten_cons, List.flatten_nil, List.append_nil]
      rw [List.nodup_append]
      refine ⟨hinv.1, hnd, ?_⟩
      intro m hmOld hmNew
      exact (hall m hmNew).2 (NamesInv_mem hinv hmOld)
    · intro d2 hd2 n hn
      rw [hd] at hd2
      rcases List.mem_append.mp hd2 with hmem | hmem
      · exact hs (hinv.2 d2 hmem n hn)
      · rcases List.mem_singleton.mp hmem with rfl
        exact (hall n hn).1

theorem processDecls_NamesInv :
    ∀ (ds : List Decl) (g : Generator) (r : Option Err) (g1 : Generator),
      processDecls g ds = (r, g1) → NamesInv g → NamesInv g1 := by
  intro ds
  induction ds with
  | nil =>
    intro g r g1 h hinv
    rw [processDecls] at h
    injection h with h1 h2
    subst h2
    exact hinv
  | cons d rest ih =>
    intro g r g1 h hinv
    rw [processDecls] at h
    split at h
    case _ e gA heq =>
      injection h with h1 h2
      subst h2
      exact processDecl_NamesInv heq hinv
    case _ gA heq =>
      exact ih _ _ _ h (processDecl_NamesInv heq hinv)

/-! State lemmas for the template execution phase. -/

theorem Import_state {g : Generator} {p a : String} {g1 : Generator}
    (h : Import g p = (a, g1)) : g1.decls = g.decls ∧ g.names ⊆ g1.names := by
  unfold Import at h
  split at h
  · injection h with h1 h2
    subst h2
    exact ⟨rfl, Finset.Subset.refl _⟩
  · injection h with h1 h2
    subst h2
    exact ⟨rfl, Finset.subset_insert _ _⟩

theorem runActs_state :
    ∀ (acts : List TAct) (g : Generator) (buff : String)
      (res : Except String String) (g1 : Generator),
      runActs g buff acts = (res, g1) →
      g1.decls = g.decls ∧ g.names ⊆ g1.names := by
  intro acts
  induction acts with
  | nil =>
    intro g buff res g1 h
    rw [runActs] at h
    injection h with h1 h2
    subst h2
    exact ⟨rfl, Finset.Subset.refl _⟩
  | cons act rest ih =>
    intro g buff res g1 h
    cases act with
    | emit s =>
      rw [runActs] at h
      exact ih _ _ _ _ h
    | callImport p =>
      rw [runActs] at h
      cases hImp : Import g p with
      | mk a gA =>
        rw [hImp] at h
        obtain ⟨hd, hs⟩ := Import_state hImp
        obtain ⟨hd2, hs2⟩ := ih _ _ _ _ h
        exact ⟨hd2.trans hd, Finset.Subset.trans hs hs2⟩
    | abort msg =>
      rw [runActs] at h
      injection h with h1 h2
      subst h2
      exact ⟨rfl, Finset.Subset.refl _⟩

theorem TextTemplate_err {D : Type}
    {tmplSem : String → Except String (D → List TAct)}
    {g : Generator} {s : String} {data : D} {out e : String} {gT : Generator}
    (h : TextTemplate tmplSem g s data = ((out, some e), gT)) :
    out = "" ∧ gT.decls = g.decls ∧ g.names ⊆ gT.names := by
  unfold TextTemplate at h
  split at h
  case _ e2 heq =>
    injection h with h1 h2
    subst h2
    injection h1 with ha hb
    exact ⟨ha.symm, rfl, Finset.Subset.refl _⟩
  case _ tr heq =>
    split at h
    case _ e2 gA heq2 =>
      injection h with h1 h2
      subst h2
      injection h1 with ha hb
      obtain ⟨hd, hs⟩ := runActs_state _ _ _ _ _ heq2
      exact ⟨ha.symm, hd, hs⟩
    case _ outA gA heq2 =>
      injection h with h1 h2
      injection h1 with ha hb
      cases hb

theorem TextTemplate_ok_state {D : Type}
    {tmplSem : String → Except String (D → List TAct)}
    {g : Generator} {s : String} {data : D} {out : String} {gT : Generator}
    (h : TextTemplate tmplSem g s data = ((out, none), gT)) :
    gT.decls = g.decls ∧ g.names ⊆ gT.names := by
  unfold TextTemplate at h
  split at h
  case _ e2 heq =>
    injection h with h1 h2
    injection h1 with ha hb
    cases hb
  case _ tr heq =>
    split at h
    case _ e2 gA heq2 =>
      injection h with h1 h2
      injection h1 with ha hb
      cases hb
    case _ outA gA heq2 =>
      injection h with h1 h2
      subst h2
      exact runActs_state _ _ _ _ _ heq2

theorem renderTemplate_err {D : Type}
    {tmplSem : String → Except String (D → List TAct)}
    {g : Generator} {s : String} {data : D} {out e : String} {gT : Generator}
    (h : TextTemplate tmplSem g s data = ((out, some e), gT)) :
    renderTemplate tmplSem g s data = (Except.error e, gT) := by
  unfold renderTemplate
  rw [h]

theorem renderTemplate_ok {D : Type}
    {tmplSem : String → Except String (D → List TAct)}
    {g : Generator} {s : String} {data : D} {out : String} {gT : Generator}
    (h : TextTemplate tmplSem g s data = ((out, none), gT)) :
    renderTemplate tmplSem g s data = (Except.ok (pkgHeader ++ out), gT) := by
  unfold renderTemplate
  rw [h]

theorem DeclareFromTemplate_render_err {D : Type}
    {tmplSem : String → Except String (D → List TAct)}
    {goParse : String → Except String (List Decl)}
    {g : Generator} {s : String} {data : D} {e : String} {gR : Generator}
    (h : renderTemplate tmplSem g s data = (Except.error e, gR)) :
    DeclareFromTemplate tmplSem goParse g s data = (some (Err.templateErr e), gR) := by
  unfold DeclareFromTemplate
  rw [h]

theorem DeclareFromTemplate_parse_err {D : Type}
    {tmplSem : String → Except String (D → List TAct)}
    {goParse : String → Except String (List Decl)}
    {g : Generator} {s : String} {data : D} {bs e : String} {gR : Generator}
    (hr : renderTemplate tmplSem g s data = (Except.ok bs, gR))
    (hp : goParse bs = Except.error e) :
    DeclareFromTemplate tmplSem goParse g s data = (some (Err.parseFailed e bs), gR) := by
  have h1 : DeclareFromTemplate tmplSem goParse g s data =
      (match goParse bs with
       | Except.error e2 => (some (Err.parseFailed e2 bs), gR)
       | Except.ok ds => processDecls gR ds) := by
    unfold DeclareFromTemplate
    rw [hr]
  rw [h1, hp]

theorem DeclareFromTemplate_parse_ok {D : Type}
    {tmplSem : String → Except String (D → List TAct)}
    {goParse : String → Except String (List Decl)}
    {g : Generator} {s : String} {data : D} {bs : String} {gR : Generator}
    {ds : List Decl}
    (hr : renderTemplate tmplSem g s data = (Except.ok bs, gR))
    (hp : goParse bs = Except.ok ds) :
    DeclareFromTemplate tmplSem goParse g s data = processDecls gR ds := by
  have h1 : DeclareFromTemplate tmplSem goParse g s data =
      (match goParse bs with
       | Except.error e2 => (some (Err.parseFailed e2 bs), gR)
       | Except.ok ds2 => processDecls gR ds2) := by
    unfold DeclareFromTemplate
    rw [hr]
  rw [h1, hp]

/-! Helper lemmas shared by the claim theorems. -/

theorem strAppend_assoc (a b c : String) : a ++ b ++ c = a ++ (b ++ c) := by
  apply String.ext
  simp only [String.data_append, List.append_assoc]

theorem strAppend_empty (a : String) : a ++ "" = a := by
  apply String.ext
  simp only [String.data_append]
  exact List.append_nil a.data

theorem NamesInv_grow {g g1 : Generator} (hd : g1.decls = g.decls)
    (hs : g.names ⊆ g1.names) (hinv : NamesInv g) : NamesInv g1 := by
  constructor
  · rw [hd]
    exact hinv.1
  · intro d2 hd2 n hn
    rw [hd] at hd2
    exact hs (hinv.2 d2 hd2 n hn)

theorem renderTemplate_ok_state {D : Type}
    {tmplSem : String → Except String (D → List TAct)}
    {g : Generator} {s : String} {data : D} {bs : String} {gR : Generator}
    (h : renderTemplate tmplSem g s data = (Except.ok bs, gR)) :
    gR.decls = g.decls ∧ g.names ⊆ gR.names ∧
    ∃ out, bs = pkgHeader ++ out ∧
      TextTemplate tmplSem g s data = ((out, none), gR) := by
  unfold renderTemplate at h
  split at h
  case _ x e g1 heq =>
    injection h with h1 h2
    cases h1
  case _ outA g1 heq =>
    injection h with h1 h2
    subst h2
    injection h1 with h1
    obtain ⟨hd, hs⟩ := TextTemplate_ok_state heq
    exact ⟨hd, hs, outA, h1.symm, heq⟩

theorem renderTemplate_err_state {D : Type}
    {tmplSem : String → Except String (D → List TAct)}
    {g : Generator} {s : String} {data : D} {e : String} {gT : Generator}
    (h : renderTemplate tmplSem g s data = (Except.error e, gT)) :
    gT.decls = g.decls ∧ g.names ⊆ gT.names := by
  unfold renderTemplate at h
  split at h
  case _ x e2 g1 heq =>
    injection h with h1 h2
    subst h2
    exact (TextTemplate_err heq).2
  case _ outA g1 heq =>
    injection h with h1 h2
    cases h1

/-! Error-shape lemmas: the three loops of recordGenDeclNames never
produce the unknown-declaration error. -/

theorem addImportSpecs_ne_unknown :
    ∀ (specs : List Spec) (g : Generator) (e : Err) (g1 : Generator),
      addImportSpecs g specs = (some e, g1) → ∀ tok2, e ≠ Err.unknownDecl tok2 := by
  intro specs
  induction specs with
  | nil =>
    intro g e g1 h tok2
    rw [addImportSpecs] at h
    injection h with h1 h2
    cases h1
  | cons s rest ih =>
    intro g e g1 h tok2
    cases s with
    | importSpec path la =>
      rw [addImportSpecs] at h
      split at h
      case _ e2 gA heq =>
        injection h with h1 h2
        injection h1 with h1
        subst h1
        intro hcon
        cases hcon
      case _ gA heq =>
        exact ih _ _ _ h tok2
    | valueSpec ns =>
      rw [addImportSpecs] at h
      · injection h with h1 h2
        injection h1 with h1
        subst h1
        intro hcon
        cases hcon
      · intro path la hcon
        cases hcon
    | typeSpec n =>
      rw [addImportSpecs] at h
      · injection h with h1 h2
        injection h1 with h1
        subst h1
        intro hcon
        cases hcon
      · intro path la hcon
        cases hcon

theorem reserveValueNames_ne_unknown (wrap : String → Err → Err)
    (hwrap : ∀ n e2 tok2, wrap n e2 ≠ Err.unknownDecl tok2) :
    ∀ (ns : List String) (g : Generator) (e : Err) (g1 : Generator),
      reserveValueNames g wrap ns = (some e, g1) → ∀ tok2, e ≠ Err.unknownDecl tok2 := by
  intro ns
  induction ns with
  | nil =>
    intro g e g1 h tok2
    rw [reserveValueNames] at h
    injection h with h1 h2
    cases h1
  | cons n rest ih =>
    intro g e g1 h tok2
    rw [reserveValueNames] at h
    split at h
    case _ e2 gA heq =>
      injection h with h1 h2
      injection h1 with h1
      subst h1
      exact hwrap n e2 tok2
    case _ gA heq =>
      exact ih _ _ _ h tok2

theorem reserveValueSpecs_ne_unknown (wrap : String → Err → Err)
    (hwrap : ∀ n e2 tok2, wrap n e2 ≠ Err.unknownDecl tok2) :
    ∀ (specs : List Spec) (g : Generator) (e : Err) (g1 : Generator),
      reserveValueSpecs g wrap specs = (some e, g1) → ∀ tok2, e ≠ Err.unknownDecl tok2 := by
  intro specs
  induction specs with
  | nil =>
    intro g e g1 h tok2
    rw [reserveValueSpecs] at h
    injection h with h1 h2
    cases h1
  | cons s rest ih =>
    intro g e g1 h tok2
    cases s with
    | valueSpec ns =>
      rw [reserveValueSpecs] at h
      split at h
      case _ e2 gA heq =>
        injection h with h1 h2
        injection h1 with h1
        subst h1
        exact reserveValueNames_ne_unknown wrap hwrap ns g e2 gA heq tok2
      case _ gA heq =>
        exact ih _ _ _ h tok2
    | importSpec path la =>
      rw [reserveValueSpecs] at h
      · injection h with h1 h2
        injection h1 with h1
        subst h1
        intro hcon
        cases hcon
      · intro ns2 hcon
        cases hcon
    | typeSpec n =>
      rw [reserveValueSpecs] at h
      · injection h with h1 h2
        injection h1 with h1
        subst h1
        intro hcon
        cases hcon
      · intro ns2 hcon
        cases hcon

theorem reserveTypeSpecs_ne_unknown :
    ∀ (specs : List Spec) (g : Generator) (e : Err) (g1 : Generator),
      reserveTypeSpecs g specs = (some e, g1) → ∀ tok2, e ≠ Err.unknownDecl tok2 := by
  intro specs
  induction specs with
  | nil =>
    intro g e g1 h tok2
    rw [reserveTypeSpecs] at h
    injection h with h1 h2
    cases h1
  | cons s rest ih =>
    intro g e g1 h tok2
    cases s with
    | typeSpec n =>
      rw [reserveTypeSpecs] at h
      split at h
      case _ e2 gA heq =>
        injection h with h1 h2
        injection h1 with h1
        subst h1
        intro hcon
        cases hcon
      case _ gA heq =>
        exact ih _ _ _ h tok2
    | importSpec path la =>
      rw [reserveTypeSpecs] at h
      · injection h with h1 h2
        injection h1 with h1
        subst h1
        intro hcon
        cases hcon
      · intro n2 hcon
        cases hcon
    | valueSpec ns =>
      rw [reserveTypeSpecs] at h
      · injection h with h1 h2
        injection h1 with h1
        subst h1
        intro hcon
        cases hcon
      · intro n2 hcon
        cases hcon

/-- Claim C10: for every general declaration whose token is one of IMPORT,
CONST, TYPE or VAR (the only tokens the parser produces for general
declarations), recordGenDeclNames never returns the unknown-declaration
error of its default branch; that branch is unreachable under this
precondition. -/
theorem c10_unknownDecl_unreachable (g : Generator) (tok : Tok) (specs : List Spec)
    (htok : tok = Tok.IMPORT ∨ tok = Tok.CONST ∨ tok = Tok.TYPE ∨ tok = Tok.VAR) :
    ∀ tok2, (recordGenDeclNames g tok specs).1 ≠ some (Err.unknownDecl tok2) := by
  intro tok2 hcon
  cases hres : recordGenDeclNames g tok specs with
  | mk r g1 =>
    rw [hres] at hcon
    simp only at hcon
    subst hcon
    rcases htok with rfl | rfl | rfl | rfl
    · rw [recordGenDeclNames] at hres
      exact addImportSpecs_ne_unknown _ _ _ _ hres tok2 rfl
    · rw [recordGenDeclNames] at hres
      exact reserveValueSpecs_ne_unknown _ (fun n e2 t hc => by cases hc) _ _ _ _ hres tok2 rfl
    · rw [recordGenDeclNames] at hres
      exact reserveTypeSpecs_ne_unknown _ _ _ _ hres tok2 rfl
    · rw [recordGenDeclNames] at hres
      exact reserveValueSpecs_ne_unknown _ (fun n e2 t hc => by cases hc) _ _ _ _ hres tok2 rfl

/-- Claim C10 witness: a CONST declaration at a concrete state never hits
the unknown-declaration branch. -/
theorem c10_witness :
    (Tok.CONST = Tok.IMPORT ∨ Tok.CONST = Tok.CONST ∨ Tok.CONST = Tok.TYPE ∨
      Tok.CONST = Tok.VAR) ∧
    (recordGenDeclNames NewGenerator Tok.CONST [Spec.valueSpec ["x"]]).1 ≠
      some (Err.unknownDecl Tok.other) :=
  ⟨Or.inr (Or.inl rfl),
   c10_unknownDecl_unreachable NewGenerator Tok.CONST [Spec.valueSpec ["x"]]
     (Or.inr (Or.inl rfl)) Tok.other⟩

/-- Claim C8: a top-level function declaration with a receiver (a method)
is accepted and appended without reserving any name, so two fragments each
declaring a method of the same name both succeed, and the reserved-name
set is untouched. -/
theorem c8_method_no_reservation (g : Generator) (m : String) :
    processDecls g [Decl.funcDecl m true] =
      (none, { g with decls := g.decls ++ [Decl.funcDecl m true] }) ∧
    (processDecls g [Decl.funcDecl m true, Decl.funcDecl m true]).1 = none ∧
    ((processDecls g [Decl.funcDecl m true, Decl.funcDecl m true]).2).decls =
      g.decls ++ [Decl.funcDecl m true, Decl.funcDecl m true] ∧
    ((processDecls g [Decl.funcDecl m true, Decl.funcDecl m true]).2).names =
      g.names := by
  refine ⟨rfl, rfl, ?_, rfl⟩
  show (g.decls ++ [Decl.funcDecl m true]) ++ [Decl.funcDecl m true] =
    g.decls ++ [Decl.funcDecl m true, Decl.funcDecl m true]
  simp

/-- Claim C2 as stated is refuted at a concrete input: a template whose
execution first calls the template-exposed import function and then fails
on an undefined data field makes DeclareFromTemplate return an error, yet
the call has reserved a name (the import alias), so the reserved-name set
differs from the one before the call. -/
theorem c2_counterexample :
    (DeclareFromTemplate importAbortEngine tableParse NewGenerator "t" ()).1.isSome = true ∧
    ((DeclareFromTemplate importAbortEngine tableParse NewGenerator "t" ()).2).names ≠
      NewGenerator.names := by
  decide

/-- Claim C2 amended: whenever rendering fails (template parse error or
execution error), DeclareFromTemplate returns the template error and
appends no declaration, and TextTemplate returns the empty string
together with the error (no partial output); names reserved by
template-exposed functions during the failed execution persist, the
declaration loop itself never running. -/
theorem c2_render_failure {D : Type}
    {tmplSem : String → Except String (D → List TAct)}
    {goParse : String → Except String (List Decl)}
    {g : Generator} {s : String} {data : D} {out e : String} {gT : Generator}
    (h : TextTemplate tmplSem g s data = ((out, some e), gT)) :
    out = "" ∧
    DeclareFromTemplate tmplSem goParse g s data = (some (Err.templateErr e), gT) ∧
    gT.decls = g.decls ∧ g.names ⊆ gT.names := by
  obtain ⟨ho, hd, hs⟩ := TextTemplate_err h
  exact ⟨ho, DeclareFromTemplate_render_err (renderTemplate_err h), hd, hs⟩

/-- Claim C2 witness: a template that fails immediately on an undefined
data field renders to the empty string with the error and leaves the
fresh generator untouched. -/
theorem c2_witness :
    DeclareFromTemplate abortEngine tableParse NewGenerator "t" () =
      (some (Err.templateErr
        "template: thriftrw: executing: undefined field Missing"), NewGenerator) ∧
    NewGenerator.decls = NewGenerator.decls :=
  ⟨(@c2_render_failure Unit abortEngine tableParse NewGenerator "t" ()
      "" "template: thriftrw: executing: undefined field Missing" NewGenerator
      (by rfl)).2.1, rfl⟩

/-- Claim C4 as stated is refuted at a concrete input: a template whose
execution calls the template-exposed import function and then emits text
that does not parse makes DeclareFromTemplate fail with a parse error,
yet the call has reserved a name (the import alias). -/
theorem c4_counterexample :
    (DeclareFromTemplate importGarbageEngine tableParse NewGenerator "t" ()).1.isSome = true ∧
    ((DeclareFromTemplate importGarbageEngine tableParse NewGenerator "t" ()).2).names ≠
      NewGenerator.names := by
  decide

/-- Claim C4 amended: when the rendered text does not parse,
DeclareFromTemplate returns an error embedding both the parser diagnostic
and the offending rendered text, and no declaration is appended; names
reserved by template-exposed functions while rendering persist, the
declaration loop never running. -/
theorem c4_parse_failure {D : Type}
    {tmplSem : String → Except String (D → List TAct)}
    {goParse : String → Except String (List Decl)}
    {g : Generator} {s : String} {data : D} {bs e : String} {gR : Generator}
    (hr : renderTemplate tmplSem g s data = (Except.ok bs, gR))
    (hp : goParse bs = Except.error e) :
    DeclareFromTemplate tmplSem goParse g s data = (some (Err.parseFailed e bs), gR) ∧
    gR.decls = g.decls ∧ g.names ⊆ gR.names ∧
    ContainsSubstr e (Err.message (Err.parseFailed e bs)) ∧
    ContainsSubstr bs (Err.message (Err.parseFailed e bs)) := by
  obtain ⟨hd, hs, _⟩ := renderTemplate_ok_state hr
  refine ⟨DeclareFromTemplate_parse_err hr hp, hd, hs, ?_, ?_⟩
  · refine ⟨"could not parse generated code: ", ":\n" ++ bs, ?_⟩
    rw [Err.message, strAppend_assoc]
  · refine ⟨"could not parse generated code: " ++ e ++ ":\n", "", ?_⟩
    rw [Err.message, strAppend_empty]

/-- Claim C4 witness: a directive-free template rendering to text that the
parser rejects produces the wrapped parse error, whose message contains
the rendered text. -/
theorem c4_witness :
    DeclareFromTemplate emitEngine tableParse NewGenerator "]]" () =
      (some (Err.parseFailed "1:1: expected declaration, found garbage"
        (pkgHeader ++ "]]")), NewGenerator) ∧
    ContainsSubstr (pkgHeader ++ "]]")
      (Err.message (Err.parseFailed "1:1: expected declaration, found garbage"
        (pkgHeader ++ "]]"))) :=
  ⟨(@c4_parse_failure Unit emitEngine tableParse NewGenerator "]]" ()
      (pkgHeader ++ "]]") "1:1: expected declaration, found garbage" NewGenerator
      (by rfl) (by rfl)).1,
   (@c4_parse_failure Unit emitEngine tableParse NewGenerator "]]" ()
      (pkgHeader ++ "]]") "1:1: expected declaration, found garbage" NewGenerator
      (by rfl) (by rfl)).2.2.2.2⟩

/-- Claim C1 as stated is refuted at a concrete input: a fragment whose
two type declarations collide on the second one fails the call, but the
first declaration has already been appended, so the accepted-declaration
list is not what it was before the call. -/
theorem c1_counterexample :
    (DeclareFromTemplate emitEngine tableParse NewGenerator
      "type A int\ntype A int" ()).1.isSome = true ∧
    ((DeclareFromTemplate emitEngine tableParse NewGenerator
      "type A int\ntype A int" ()).2).decls ≠ NewGenerator.decls := by
  decide

/-- Claim C1 amended: when DeclareFromTemplate fails after a successful
render and parse, the whole call fails, the parsed declarations split
around a first failing declaration, the declarations before it remain
appended (with their names reserved), and the failing declaration and all
later ones are not appended; prior state is restored only when the
failure hits the very first declaration. -/
theorem c1_collision_keeps_front {D : Type}
    {tmplSem : String → Except String (D → List TAct)}
    {goParse : String → Except String (List Decl)}
    {g : Generator} {s : String} {data : D}
    {bs : String} {gR : Generator} {ds : List Decl} {e : Err} {g1 : Generator}
    (hr : renderTemplate tmplSem g s data = (Except.ok bs, gR))
    (hp : goParse bs = Except.ok ds)
    (hfail : DeclareFromTemplate tmplSem goParse g s data = (some e, g1)) :
    ∃ pre d post gp,
      ds = pre ++ d :: post ∧
      processDecls gR pre = (none, gp) ∧
      processDecl gp d = (some e, g1) ∧
      g1.decls = g.decls ++ pre ∧
      g.names ⊆ g1.names := by
  have hD := DeclareFromTemplate_parse_ok hr hp
  rw [hD] at hfail
  obtain ⟨pre, d, post, gp, h1, h2, h3, h4, h5, h6⟩ :=
    processDecls_some _ _ _ _ hfail
  obtain ⟨hdR, hsR, _⟩ := renderTemplate_ok_state hr
  refine ⟨pre, d, post, gp, h1, h2, h3, ?_, Finset.Subset.trans hsR h6⟩
  rw [h5, hdR]

/-- Claim C1 witness: on the two-type-declaration fragment that collides
on its second declaration, the accepted prefix is exactly the first
declaration. -/
theorem c1_witness :
    ∃ pre d post gp,
      ([Decl.genDecl Tok.TYPE [Spec.typeSpec "A"],
        Decl.genDecl Tok.TYPE [Spec.typeSpec "A"]] : List Decl) = pre ++ d :: post ∧
      processDecls NewGenerator pre = (none, gp) ∧
      processDecl gp d =
        (some (Err.typeDeclFailed "A" (Err.nameCollision "A")),
         { imports := [], names := {"A"},
           decls := [Decl.genDecl Tok.TYPE [Spec.typeSpec "A"]] }) ∧
      ({ imports := [], names := {"A"},
         decls := [Decl.genDecl Tok.TYPE [Spec.typeSpec "A"]] } : Generator).decls =
        NewGenerator.decls ++ pre ∧
      NewGenerator.names ⊆
        ({ imports := [], names := {"A"},
           decls := [Decl.genDecl Tok.TYPE [Spec.typeSpec "A"]] } : Generator).names :=
  @c1_collision_keeps_front Unit emitEngine tableParse NewGenerator
    "type A int\ntype A int" () (pkgHeader ++ "type A int\ntype A int") NewGenerator
    [Decl.genDecl Tok.TYPE [Spec.typeSpec "A"], Decl.genDecl Tok.TYPE [Spec.typeSpec "A"]]
    (Err.typeDeclFailed "A" (Err.nameCollision "A"))
    { imports := [], names := {"A"},
      decls := [Decl.genDecl Tok.TYPE [Spec.typeSpec "A"]] }
    (by rfl) (by rfl) (by rfl)

/-- Claim C5: every top-level function, type, constant and variable name
of an accepted declaration is reserved in the root scope before the
declaration is appended, so the top-level names of the accepted
declarations stay pairwise distinct and reserved across every
DeclareFromTemplate call, whatever its outcome. -/
theorem c5_names_unique {D : Type}
    (tmplSem : String → Except String (D → List TAct))
    (goParse : String → Except String (List Decl))
    (g : Generator) (s : String) (data : D)
    (hinv : NamesInv g) :
    NamesInv (DeclareFromTemplate tmplSem goParse g s data).2 := by
  cases hr : renderTemplate tmplSem g s data with
  | mk res gR =>
    cases res with
    | error e =>
      rw [DeclareFromTemplate_render_err hr]
      exact NamesInv_grow (renderTemplate_err_state hr).1
        (renderTemplate_err_state hr).2 hinv
    | ok bs =>
      obtain ⟨hdR, hsR, _⟩ := renderTemplate_ok_state hr
      cases hp : goParse bs with
      | error e =>
        rw [DeclareFromTemplate_parse_err hr hp]
        exact NamesInv_grow hdR hsR hinv
      | ok ds =>
        rw [DeclareFromTemplate_parse_ok hr hp]
        cases hPD : processDecls gR ds with
        | mk r g1 =>
          exact processDecls_NamesInv _ _ _ _ hPD (NamesInv_grow hdR hsR hinv)

/-- Claim C5 witness: two fragments both declaring type Foo; the first
call succeeds, the second fails with the wrapped name-collision error,
the final unit contains exactly one Foo declaration, and the invariant
holds throughout. -/
theorem c5_witness :
    NamesInv ((DeclareFromTemplate emitEngine tableParse
      (DeclareFromTemplate emitEngine tableParse NewGenerator
        "type Foo int32" ()).2 "type Foo int32" ()).2) ∧
    (DeclareFromTemplate emitEngine tableParse
      (DeclareFromTemplate emitEngine tableParse NewGenerator
        "type Foo int32" ()).2 "type Foo int32" ()).1 =
      some (Err.typeDeclFailed "Foo" (Err.nameCollision "Foo")) ∧
    ((DeclareFromTemplate emitEngine tableParse
      (DeclareFromTemplate emitEngine tableParse NewGenerator
        "type Foo int32" ()).2 "type Foo int32" ()).2).decls =
      [Decl.genDecl Tok.TYPE [Spec.typeSpec "Foo"]] := by
  refine ⟨c5_names_unique emitEngine tableParse _ "type Foo int32" ()
    (c5_names_unique emitEngine tableParse NewGenerator "type Foo int32" ()
      (by decide)), ?_, ?_⟩
  · decide
  · decide

theorem addImportSpecs_run :
    ∀ (specs : List Spec) (g : Generator),
      (∀ sp ∈ specs, ∃ p la, sp = Spec.importSpec p la) →
      (∀ g1, addImportSpecs g specs = (none, g1) →
        g1 = specs.foldl addImportStep g) ∧
      (∀ e g1, addImportSpecs g specs = (some e, g1) →
        ∃ pre sp post e2 gp,
          specs = pre ++ sp :: post ∧
          addImportSpecs g pre = (none, gp) ∧
          (∃ p la, sp = Spec.importSpec p la ∧
            AddImportSpec gp p la = (some e2, g1)) ∧
          e = Err.explicitImportFailed sp e2) := by
  intro specs
  induction specs with
  | nil =>
    intro g hall
    constructor
    · intro g1 h
      rw [addImportSpecs] at h
      injection h with h1 h2
      subst h2
      rfl
    · intro e g1 h
      rw [addImportSpecs] at h
      injection h with h1 h2
      cases h1
  | cons s rest ih =>
    intro g hall
    obtain ⟨p, la, rfl⟩ := hall s (List.mem_cons_self _ _)
    have hrest : ∀ sp ∈ rest, ∃ p2 la2, sp = Spec.importSpec p2 la2 :=
      fun sp hsp => hall sp (List.mem_cons_of_mem _ hsp)
    constructor
    · intro g1 h
      rw [addImportSpecs] at h
      split at h
      case _ e2 gA heq =>
        injection h with h1 h2
        cases h1
      case _ gA heq =>
        have hfold := (ih gA hrest).1 g1 h
        rw [List.foldl_cons]
        have hstep : addImportStep g (Spec.importSpec p la) = gA := by
          rw [addImportStep, heq]
        rw [hstep]
        exact hfold
    · intro e g1 h
      rw [addImportSpecs] at h
      split at h
      case _ e2 gA heq =>
        injection h with h1 h2
        subst h2
        injection h1 with h1
        subst h1
        exact ⟨[], Spec.importSpec p la, rest, e2, g, rfl, by rw [addImportSpecs],
          ⟨p, la, rfl, heq⟩, rfl⟩
      case _ gA heq =>
        obtain ⟨pre, sp, post, e2, gp, hsplit, hpre, hstep, herr⟩ :=
          (ih gA hrest).2 e g1 h
        refine ⟨Spec.importSpec p la :: pre, sp, post, e2, gp,
          by simp [hsplit], ?_, hstep, herr⟩
        rw [addImportSpecs, heq]
        exact hpre

/-- Claim C6: on an IMPORT declaration whose specs are all import specs
(as the parser guarantees), the registry reconciliation runs once per
spec, in order: a fully successful loop leaves exactly the fold of
AddImportSpec over all the specs, and a failing reconciliation fails the
whole call with an error naming the offending import spec and wrapping
the registry error. -/
theorem c6_explicit_imports (g : Generator) (specs : List Spec)
    (hall : ∀ sp ∈ specs, ∃ p la, sp = Spec.importSpec p la) :
    (∀ g1, recordGenDeclNames g Tok.IMPORT specs = (none, g1) →
      g1 = specs.foldl addImportStep g) ∧
    (∀ e g1, recordGenDeclNames g Tok.IMPORT specs = (some e, g1) →
      ∃ pre sp post e2 gp,
        specs = pre ++ sp :: post ∧
        addImportSpecs g pre = (none, gp) ∧
        (∃ p la, sp = Spec.importSpec p la ∧
          AddImportSpec gp p la = (some e2, g1)) ∧
        e = Err.explicitImportFailed sp e2) := by
  rw [recordGenDeclNames]
  exact addImportSpecs_run specs g hall

/-- Claim C6 witness: two literal imports of the same path under
conflicting aliases; the second reconciliation fails and the call reports
the offending spec wrapped in the explicit-import error. -/
theorem c6_witness :
    ∃ pre sp post e2 gp,
      ([Spec.importSpec "strings" none,
        Spec.importSpec "strings" (some "other")] : List Spec) = pre ++ sp :: post ∧
      addImportSpecs NewGenerator pre = (none, gp) ∧
      (∃ p la, sp = Spec.importSpec p la ∧
        AddImportSpec gp p la =
          (some e2,
           { imports := [("strings", "strings")], names := {"strings"},
             decls := [] })) ∧
      Err.explicitImportFailed (Spec.importSpec "strings" (some "other"))
        (Err.dupImport "strings") = Err.explicitImportFailed sp e2 :=
  (c6_explicit_imports NewGenerator
    [Spec.importSpec "strings" none, Spec.importSpec "strings" (some "other")]
    (by
      intro sp hsp
      rcases List.mem_cons.mp hsp with rfl | hsp2
      · exact ⟨"strings", none, rfl⟩
      · rcases List.mem_cons.mp hsp2 with rfl | hsp3
        · exact ⟨"strings", some "other", rfl⟩
        · cases hsp3)).2
    (Err.explicitImportFailed (Spec.importSpec "strings" (some "other"))
      (Err.dupImport "strings"))
    { imports := [("strings", "strings")], names := {"strings"}, decls := [] }
    (by decide)

/-- Claim C7: the template-exposed import function is idempotent per
module path (a second call for the same path returns the same alias), and
on a registry satisfying its invariant two distinct paths never receive
the same alias. -/
theorem c7_import_idempotent (g : Generator) (p q : String)
    (hinv : ImportInv g) (hpq : p ≠ q) :
    (Import (Import g p).2 p).1 = (Import g p).1 ∧
    (Import (Import g p).2 q).1 ≠ (Import g p).1 := by
  cases hl : lookupPath p g.imports with
  | some a =>
    rw [Import_lookup_some hl]
    show (Import g p).1 = a ∧ (Import g q).1 ≠ a
    constructor
    · rw [Import_lookup_some hl]
    · cases hlq : lookupPath q g.imports with
      | some b =>
        rw [Import_lookup_some hlq]
        show b ≠ a
        exact (lookupPath_ne_of_nodup g.imports hinv.2.2 hpq hl hlq).symm
      | none =>
        intro heq
        have hnot := Import_alias_not_free hlq
        rw [heq] at hnot
        exact hnot (Import_alias_mem hinv hl)
  | none =>
    have hfree : (Import g p).1 ∉ g.names := Import_alias_not_free hl
    cases hstep : Import g p with
    | mk A g2 =>
      rw [hstep] at hfree
      have hg2 := Import_lookup_none hl
      rw [hstep] at hg2
      injection hg2 with hA hg2
      rw [← hA] at hg2
      show (Import g2 p).1 = A ∧ (Import g2 q).1 ≠ A
      constructor
      · have hlook : lookupPath p g2.imports = some A := by
          rw [hg2]
          exact lookupPath_append_self _ _ _ hl
        rw [Import_lookup_some hlook]
      · have hlq2 : lookupPath q g2.imports = lookupPath q g.imports := by
          rw [hg2]
          exact lookupPath_append_ne _ hpq
        cases hlq : lookupPath q g.imports with
        | some b =>
          have hlb : lookupPath q g2.imports = some b := by
            rw [hlq2, hlq]
          rw [Import_lookup_some hlb]
          show b ≠ A
          intro heq
          have hbmem : b ∈ g.names := Import_alias_mem hinv hlq
          rw [heq] at hbmem
          exact hfree hbmem
        | none =>
          have hnone2 : lookupPath q g2.imports = none := by
            rw [hlq2, hlq]
          have hnot := Import_alias_not_free hnone2
          intro heq
          rw [heq] at hnot
          apply hnot
          rw [hg2]
          exact Finset.mem_insert_self _ _

/-- Claim C7 witness: importing the strings package twice returns the
same alias; importing fmt afterwards returns a different one. -/
theorem c7_witness :
    (Import (Import NewGenerator "strings").2 "strings").1 =
      (Import NewGenerator "strings").1 ∧
    (Import (Import NewGenerator "strings").2 "fmt").1 ≠
      (Import NewGenerator "strings").1 :=
  c7_import_idempotent NewGenerator "strings" "fmt" (by decide) (by decide)

theorem leadChars_refl_append : ∀ (l t : List Char), leadChars l (l ++ t) = true := by
  intro l
  induction l with
  | nil =>
    intro t
    rfl
  | cons c cs ih =>
    intro t
    show (c == c && leadChars cs (cs ++ t)) = true
    rw [ih]
    simp

/-- Claim C9: when rendering succeeds, the byte sequence handed to the
parser is exactly the fixed package header followed by the rendered
output; hence, for any parser that (like the Go grammar) rejects a text
carrying a second package clause right after the header, a fragment whose
rendered text itself begins with a package clause is never accepted. -/
theorem c9_header_exact {D : Type}
    {tmplSem : String → Except String (D → List TAct)}
    (goParse : String → Except String (List Decl))
    {g : Generator} {s : String} {data : D} {out : String} {gT : Generator}
    (h : TextTemplate tmplSem g s data = ((out, none), gT))
    (hpkg : StartsWith "package" out)
    (hgrammar : ∀ u, StartsWith (pkgHeader ++ "package") u →
      ∃ e, goParse u = Except.error e) :
    renderTemplate tmplSem g s data = (Except.ok (pkgHeader ++ out), gT) ∧
    ∃ e, DeclareFromTemplate tmplSem goParse g s data =
      (some (Err.parseFailed e (pkgHeader ++ out)), gT) := by
  have hrender := renderTemplate_ok h
  refine ⟨hrender, ?_⟩
  obtain ⟨t, ht⟩ := hpkg
  have hsw : StartsWith (pkgHeader ++ "package") (pkgHeader ++ out) := by
    refine ⟨t, ?_⟩
    rw [ht, strAppend_assoc]
  obtain ⟨e, he⟩ := hgrammar _ hsw
  exact ⟨e, DeclareFromTemplate_parse_err hrender he⟩

/-- Claim C9 witness: a fragment rendering to text that starts with its
own package clause is rejected by the package-clause-sensitive parser
model after receiving exactly the header plus the rendered text. -/
theorem c9_witness :
    renderTemplate emitEngine NewGenerator "package main" () =
      (Except.ok (pkgHeader ++ "package main"), NewGenerator) ∧
    ∃ e, DeclareFromTemplate emitEngine pkgParse NewGenerator "package main" () =
      (some (Err.parseFailed e (pkgHeader ++ "package main")), NewGenerator) :=
  @c9_header_exact Unit emitEngine pkgParse NewGenerator "package main" ()
    "package main" NewGenerator (by rfl)
    ⟨" main", by decide⟩
    (by
      rintro u ⟨t, rfl⟩
      refine ⟨"3:1: expected declaration, found package", ?_⟩
      have hpre : leadChars (pkgHeader ++ "package").data
          ((pkgHeader ++ "package") ++ t).data = true := by
        rw [String.data_append]
        exact leadChars_refl_append _ _
      show (if leadChars (pkgHeader ++ "package").data
          ((pkgHeader ++ "package") ++ t).data then
            Except.error "3:1: expected declaration, found package"
          else Except.ok ([] : List Decl)) =
        Except.error "3:1: expected declaration, found package"
      rw [if_pos hpre])

/-- Claim C3: after any successful run of DeclareFromTemplate calls, the
file written by Write is the consolidated import block (when non-empty)
followed by the accepted declarations, which are exactly the per-call
parse results concatenated in call order: nothing is reordered, regrouped
or dropped. -/
theorem c3_write_order {D : Type}
    {tmplSem : String → Except String (D → List TAct)}
    {goParse : String → Except String (List Decl)}
    {g gfin : Generator} {calls : List (String × D)} {dss : List (List Decl)}
    (hrun : RunOk tmplSem goParse g calls dss gfin) :
    gfin.decls = g.decls ++ dss.flatten ∧
    Write gfin = importBlock gfin ++ g.decls ++ dss.flatten ∧
    (gfin.imports = [] → Write gfin = g.decls ++ dss.flatten) := by
  induction hrun with
  | nil g2 =>
    refine ⟨by simp, by simp [Write], ?_⟩
    intro hemp
    simp [Write, importBlock, importDecl, hemp]
  | cons hrender hparse hcall htail ih =>
    obtain ⟨ih1, ih2, ih3⟩ := ih
    have hD := DeclareFromTemplate_parse_ok hrender hparse
    rw [hD] at hcall
    obtain ⟨hdmid, _⟩ := processDecls_none _ _ _ hcall
    obtain ⟨hdR, _, _⟩ := renderTemplate_ok_state hrender
    refine ⟨?_, ?_, ?_⟩
    · rw [ih1, hdmid, hdR]
      simp
    · rw [ih2, hdmid, hdR]
      simp
    · intro hemp
      rw [ih3 hemp, hdmid, hdR]
      simp

/-- Claim C3 witness: two successful calls (a type and a function
fragment) leave exactly the two parsed declarations, in call order, and
Write emits them behind the (here empty) import block. -/
theorem c3_witness :
    ({ imports := [], names := {"F", "Foo"},
       decls := [Decl.genDecl Tok.TYPE [Spec.typeSpec "Foo"],
                 Decl.funcDecl "F" false] } : Generator).decls =
      NewGenerator.decls ++
        ([[Decl.genDecl Tok.TYPE [Spec.typeSpec "Foo"]],
          [Decl.funcDecl "F" false]] : List (List Decl)).flatten ∧
    Write { imports := [], names := {"F", "Foo"},
            decls := [Decl.genDecl Tok.TYPE [Spec.typeSpec "Foo"],
                      Decl.funcDecl "F" false] } =
      importBlock { imports := [], names := {"F", "Foo"},
                    decls := [Decl.genDecl Tok.TYPE [Spec.typeSpec "Foo"],
                              Decl.funcDecl "F" false] } ++
        NewGenerator.decls ++
        ([[Decl.genDecl Tok.TYPE [Spec.typeSpec "Foo"]],
          [Decl.funcDecl "F" false]] : List (List Decl)).flatten := by
  have hrun : RunOk emitEngine tableParse NewGenerator
      [("type Foo int32", ()), ("func F()", ())]
      [[Decl.genDecl Tok.TYPE [Spec.typeSpec "Foo"]], [Decl.funcDecl "F" false]]
      { imports := [], names := {"F", "Foo"},
        decls := [Decl.genDecl Tok.TYPE [Spec.typeSpec "Foo"],
                  Decl.funcDecl "F" false] } :=
    @RunOk.cons Unit emitEngine tableParse NewGenerator NewGenerator
      { imports := [], names := {"Foo"},
        decls := [Decl.genDecl Tok.TYPE [Spec.typeSpec "Foo"]] }
      { imports := [], names := {"F", "Foo"},
        decls := [Decl.genDecl Tok.TYPE [Spec.typeSpec "Foo"],
                  Decl.funcDecl "F" false] }
      "type Foo int32" (pkgHeader ++ "type Foo int32") ()
      [Decl.genDecl Tok.TYPE [Spec.typeSpec "Foo"]]
      [("func F()", ())] [[Decl.funcDecl "F" false]]
      (by rfl) (by rfl) (by rfl)
      (@RunOk.cons Unit emitEngine tableParse
        { imports := [], names := {"Foo"},
          decls := [Decl.genDecl Tok.TYPE [Spec.typeSpec "Foo"]] }
        { imports := [], names := {"Foo"},
          decls := [Decl.genDecl Tok.TYPE [Spec.typeSpec "Foo"]] }
        { imports := [], names := {"F", "Foo"},
          decls := [Decl.genDecl Tok.TYPE [Spec.typeSpec "Foo"],
                    Decl.funcDecl "F" false] }
        { imports := [], names := {"F", "Foo"},
          decls := [Decl.genDecl Tok.TYPE [Spec.typeSpec "Foo"],
                    Decl.funcDecl "F" false] }
        "func F()" (pkgHeader ++ "func F()") ()
        [Decl.funcDecl "F" false] [] []
        (by rfl) (by rfl) (by rfl)
        (RunOk.nil _))
  exact ⟨(c3_write_order hrun).1, (c3_write_order hrun).2.1⟩

end Thriftrw
